import Mathlib

/-!
Verification development for `src/file_sorter.py`, an asynchronous file sorter
that enumerates files under a source root, classifies each by extension,
and copies it into a per-extension subdirectory of an output root under a
bounded concurrency limit.

Filenames are modelled as `List Char` (a Python `str`), filesystem paths as
`List (List Char)` (path components), and file contents as `List Nat` (bytes).
-/

set_option autoImplicit false

/-- A filename (one path component), a Python `str`. -/
abbrev FileName := List Char

/-- A filesystem path, as a list of components. -/
abbrev FsPath := List FileName

/-- A filesystem state: maps a path to the byte content of the file stored
there, or `none` when no file exists at that path. -/
abbrev Fs := FsPath → Option (List Nat)

/-! ### Python string / pathlib primitives used by the source -/

/-- Python `str.lower()` restricted to per-character lowering, as used on
extension strings (`file_sorter.py` line 79). -/
def pyLower (s : List Char) : List Char := s.map Char.toLower

/-- Python `str.lstrip('.')`: drop every leading `'.'` character
(`file_sorter.py` line 79). -/
def lstripDot (s : List Char) : List Char := s.dropWhile (fun c => c = '.')

/-- Split a name at its last dot: `some (before, after)` when the name
contains a `'.'` (so that `name = before ++ '.' :: after` with `after`
dot-free), `none` otherwise.  This is the helper underlying CPython's
`PurePath.suffix`/`stem` (`name.rfind('.')`). -/
def splitLastDot (s : List Char) : Option (List Char × List Char) :=
  match s.reverse.dropWhile (fun c => c ≠ '.') with
  | [] => none
  | _ :: before => some (before.reverse, (s.reverse.takeWhile (fun c => c ≠ '.')).reverse)

/-- CPython `PurePath.suffix`: the part of the name from the last dot on,
provided the last dot is neither the first nor the last character; `[]`
otherwise (`file_sorter.py` lines 79 and 99). -/
def pySuffix (s : List Char) : List Char :=
  match splitLastDot s with
  | some (before, aft) => if before ≠ [] ∧ aft ≠ [] then '.' :: aft else []
  | none => []

/-- CPython `PurePath.stem`: the name with `pySuffix` removed
(`file_sorter.py` line 98). -/
def pyStem (s : List Char) : List Char :=
  match splitLastDot s with
  | some (before, aft) => if before ≠ [] ∧ aft ≠ [] then before else s
  | none => s

/-- The sentinel extension key for files without an extension
(`file_sorter.py` line 83). -/
def noExtension : List Char := "no_extension".data

/-- The classifier, `file_sorter.py` lines 79-83:
`file_extension = source_file.suffix.lower().lstrip('.')`, replaced by
`no_extension` when empty. -/
def classify (name : FileName) : List Char :=
  let ext := lstripDot (pyLower (pySuffix name))
  if ext = [] then noExtension else ext

example : classify "a.txt".data = "txt".data := by decide
example : classify "archive.tar.gz".data = "gz".data := by decide
example : classify "README".data = noExtension := by decide
example : classify ".bashrc".data = noExtension := by decide
example : classify "b.TXT".data = "txt".data := by decide
example : classify "a.".data = noExtension := by decide
example : pyStem "a.txt".data = "a".data := by decide
example : pySuffix "a.txt".data = ".txt".data := by decide

/-! ### Decimal rendering of the collision counter (Python `str(int)`) -/

/-- The ASCII character of a decimal digit. -/
def digitChar (d : Nat) : Char := Char.ofNat (48 + d)

/-- Fuel-indexed decimal rendering of a natural number, most significant
digit first (structural so that the kernel can evaluate it). -/
def natDecAux : Nat → Nat → List Char
  | 0, _ => []
  | fuel + 1, n =>
    if n < 10 then [digitChar n]
    else natDecAux fuel (n / 10) ++ [digitChar (n % 10)]

/-- Python `str(n)` for a non-negative integer: standard decimal rendering,
used by the f-string on `file_sorter.py` line 100. -/
def natDec (n : Nat) : List Char := natDecAux (n + 1) n

example : natDec 0 = "0".data := by decide
example : natDec 17 = "17".data := by decide

/-! ### Collision-safe naming (`file_sorter.py` lines 92-101) -/

/-- The k-th candidate filename tried by the collision loop: the original
name for `k = 0`, then `{stem}_{k}{suffix}` for `k = 1, 2, ...`, with `stem`
and `suffix` always taken from the original target (`original_target`,
lines 96-100). -/
def candidate (name : FileName) (k : Nat) : FileName :=
  match k with
  | 0 => name
  | _ + 1 => pyStem name ++ '_' :: natDec k ++ pySuffix name

/-- The `while await aiofiles.os.path.exists(target_file)` loop of lines
95-101, parameterized by the filesystem-existence predicate and bounded
by fuel (the source loop is unbounded; fuel exhaustion yields `none`).
`k` is `counter - 1`: the index of the candidate checked next. -/
def resolveLoop (exists? : FileName → Bool) (name : FileName) : Nat → Nat → Option FileName
  | _, 0 => none
  | k, fuel + 1 =>
    if exists? (candidate name k) then resolveLoop exists? name (k + 1) fuel
    else some (candidate name k)

/-- The collision-safe namer: first candidate (starting from the desired
name itself) that the existence predicate reports as unused. -/
def resolveTarget (exists? : FileName → Bool) (name : FileName) (fuel : Nat) : Option FileName :=
  resolveLoop exists? name 0 fuel

example : resolveTarget (fun _ => false) "a.txt".data 1 = some "a.txt".data := by decide
example :
    resolveTarget (fun c => c = "a.txt".data ∨ c = "a_1.txt".data) "a.txt".data 3
      = some "a_2.txt".data := by decide

/-! ### Chunked streaming copy (`file_sorter.py` lines 104-107) -/

/-- One `await src.read(8192)` returns the next at-most-8192 bytes; the loop
body `await dst.write(chunk)` appends them to the destination.  The loop
runs `while chunk` is non-empty; fuel makes the recursion structural. -/
def streamCopyLoop : Nat → List Nat → List Nat
  | 0, _ => []
  | _ + 1, [] => []
  | fuel + 1, b :: rest =>
    let src := b :: rest
    src.take 8192 ++ streamCopyLoop fuel (src.drop 8192)

/-- The destination bytes produced by streaming `src` in 8 KiB chunks until
end-of-input (`file_sorter.py` lines 104-107). -/
def streamCopy (src : List Nat) : List Nat := streamCopyLoop src.length src

example : streamCopy [1, 2, 3] = [1, 2, 3] := by decide

/-! ### The copier (`file_sorter.py` lines 66-114) -/

/-- The initial destination path computed before collision resolution:
`output_folder / file_extension / source_file.name` (lines 86 and 92). -/
def initialTarget (outputFolder : FsPath) (name : FileName) : FsPath :=
  outputFolder ++ [classify name, name]

/-- `copy_file(source_file, output_folder)` (lines 66-114) over the
filesystem model: classify the source name, resolve a collision-free
target name inside `output_folder / extension`, then stream the source
bytes to that target.  Returns the `bool` result together with the updated
filesystem; any failure (source unreadable, namer fuel exhausted) is caught
by the `except` clause of lines 112-114 and yields `(false, fs)`. -/
def copyFileFS (fs : Fs) (srcPath : FsPath) (outputFolder : FsPath) (fuel : Nat) :
    Bool × Fs :=
  let name := srcPath.getLastD []
  let subfolder := outputFolder ++ [classify name]
  match resolveTarget (fun nm => (fs (subfolder ++ [nm])).isSome) name fuel with
  | none => (false, fs)
  | some nm =>
    match fs srcPath with
    | none => (false, fs)
    | some content =>
      (true, fun p => if p = subfolder ++ [nm] then some (streamCopy content) else fs p)

/-- `copy_file` with an injected fault oracle: `fault srcPath = true` models
an exception raised anywhere inside the `try` block for that file, which
the `except` clause (lines 112-114) converts into a `false` return without
touching anything else. -/
def copyFileF (fault : FsPath → Bool) (fs : Fs) (srcPath : FsPath)
    (outputFolder : FsPath) (fuel : Nat) : Bool × Fs :=
  if fault srcPath then (false, fs) else copyFileFS fs srcPath outputFolder fuel

/-! ### The scheduler and reporter (`file_sorter.py` lines 117-164) -/

/-- The outcome list produced by `asyncio.gather(*tasks)` over
`tasks = [copy_with_semaphore(file_path) for file_path in files]`
(lines 145-146): one boolean outcome per input file. -/
def processOutcomes (fault : FsPath → Bool) (fs : Fs) (outputFolder : FsPath)
    (fuel : Nat) (files : List FsPath) : List Bool :=
  files.map (fun f => (copyFileF fault fs f outputFolder fuel).1)

/-- `successful = sum(1 for result in results if result is True)` (line 149). -/
def successfulCount (results : List Bool) : Nat :=
  results.countP (fun r => r = true)

/-- `failed = len(results) - successful` (line 150). -/
def failedCount (results : List Bool) : Nat :=
  results.length - successfulCount results

/-! ### The semaphore-bounded scheduler as a transition system
(`file_sorter.py` lines 138-146)

`asyncio.Semaphore(max_concurrent)` holds `permits` permits; each task is
either waiting to enter `async with semaphore`, running `copy_file` (holding
an open source handle), or done.  `acquire` needs a free permit; `release`
returns it. -/

/-- Scheduler state: free semaphore permits plus task counts by phase. -/
structure SchedState where
  permits : Nat
  running : Nat
  waiting : Nat
  done : Nat
  deriving DecidableEq, Repr

/-- One interleaving step of the semaphore-guarded scheduler:
a waiting task acquires a permit and starts its copy, or a running copy
finishes and releases its permit (`copy_with_semaphore`, lines 140-142). -/
inductive SemStep : SchedState → SchedState → Prop
  | acquire (p r w d : Nat) : SemStep ⟨p + 1, r, w + 1, d⟩ ⟨p, r + 1, w, d⟩
  | release (p r w d : Nat) : SemStep ⟨p, r + 1, w, d⟩ ⟨p + 1, r, w, d + 1⟩

/-- States reachable from the initial state of a run with concurrency
limit `n` and `w` submitted copy tasks (`asyncio.Semaphore(max_concurrent)`
starts with all permits free and every task waiting, lines 138 and 145). -/
inductive SemReach (n w : Nat) : SchedState → Prop
  | init : SemReach n w ⟨n, 0, w, 0⟩
  | step {s s' : SchedState} : SemReach n w s → SemStep s s' → SemReach n w s'

/-! ### Run-level control flow (`file_sorter.py` lines 117-135 and 213-243) -/

/-- Observable effects of one program run: whether a validation error was
logged, whether the output folder got created, and how many files were
submitted for processing. -/
structure RunReport where
  validationError : Bool
  outputCreated : Bool
  processedCount : Nat
  deriving DecidableEq, Repr

/-- `process_files` (lines 117-135): creates the output folder, reads the
source folder, and submits every discovered file. -/
def processFilesRun (files : List FsPath) : RunReport :=
  { validationError := false, outputCreated := true, processedCount := files.length }

/-- `main` (lines 213-243): validates that the source folder exists and is
a directory (lines 228-234) and only then calls `process_files`; on a
validation failure it logs an error and returns at once. -/
def mainRun (sourceExists sourceIsDir : Bool) (files : List FsPath) : RunReport :=
  if sourceExists = false then
    { validationError := true, outputCreated := false, processedCount := 0 }
  else if sourceIsDir = false then
    { validationError := true, outputCreated := false, processedCount := 0 }
  else processFilesRun files

/-! ### Helper lemmas: chunked streaming reproduces the source bytes -/

theorem streamCopyLoop_sound :
    ∀ (fuel : Nat) (src : List Nat), src.length ≤ fuel → streamCopyLoop fuel src = src := by
  intro fuel
  induction fuel with
  | zero =>
    intro src h
    rw [List.eq_nil_of_length_eq_zero (Nat.le_zero.mp h)]
    rfl
  | succ f ih =>
    intro src h
    cases src with
    | nil => rfl
    | cons b rest =>
      have h' : rest.length + 1 ≤ f + 1 := by simpa using h
      have hd : ((b :: rest).drop 8192).length ≤ f := by
        simp only [List.length_drop, List.length_cons]
        omega
      show (b :: rest).take 8192 ++ streamCopyLoop f ((b :: rest).drop 8192) = b :: rest
      rw [ih _ hd]
      exact List.take_append_drop _ _

theorem streamCopy_eq (src : List Nat) : streamCopy src = src :=
  streamCopyLoop_sound src.length src (Nat.le_refl _)

/-! ### Helper lemmas: decimal rendering is injective -/

/-- Decimal value of a digit string (proof device for injectivity). -/
def decVal (l : List Char) : Nat :=
  l.foldl (fun a c => a * 10 + (c.toNat - 48)) 0

theorem decVal_append_digit (xs : List Char) (c : Char) :
    decVal (xs ++ [c]) = decVal xs * 10 + (c.toNat - 48) := by
  unfold decVal
  rw [List.foldl_append]
  rfl

theorem digitChar_toNat (d : Nat) (h : d < 10) : (digitChar d).toNat = 48 + d := by
  interval_cases d <;> decide

theorem decVal_natDecAux :
    ∀ (fuel n : Nat), n < fuel → decVal (natDecAux fuel n) = n := by
  intro fuel
  induction fuel with
  | zero => intro n h; omega
  | succ f ih =>
    intro n h
    unfold natDecAux
    split
    · next h10 =>
      have hv : decVal [digitChar n] = 0 * 10 + ((digitChar n).toNat - 48) := rfl
      rw [hv, digitChar_toNat n h10]
      omega
    · next h10 =>
      rw [decVal_append_digit, ih (n / 10) (by omega), digitChar_toNat (n % 10) (by omega)]
      omega

theorem natDec_inj {a b : Nat} (h : natDec a = natDec b) : a = b := by
  have ha : decVal (natDec a) = a := decVal_natDecAux (a + 1) a (Nat.lt_succ_self a)
  have hb : decVal (natDec b) = b := decVal_natDecAux (b + 1) b (Nat.lt_succ_self b)
  rw [← ha, ← hb, h]

theorem natDec_ne_nil (n : Nat) : natDec n ≠ [] := by
  unfold natDec natDecAux
  split <;> simp

/-! ### Helper lemmas: splitting a name at its last dot -/

theorem dropWhile_head_false {α : Type} (p : α → Bool) :
    ∀ (l : List α) (a : α) (as : List α), l.dropWhile p = a :: as → p a = false := by
  intro l
  induction l with
  | nil => intro a as h; simp [List.dropWhile] at h
  | cons x xs ih =>
    intro a as h
    rw [List.dropWhile_cons] at h
    split at h
    · exact ih _ _ h
    · next hx =>
      cases h
      simpa using hx

theorem stem_append_suffix (s : List Char) : pyStem s ++ pySuffix s = s := by
  unfold pyStem pySuffix splitLastDot
  cases h : s.reverse.dropWhile (fun c => c ≠ '.') with
  | nil => simp
  | cons d before =>
    have hd : d = '.' := by
      have := dropWhile_head_false _ _ _ _ h
      simpa using this
    subst hd
    have hsplit : s.reverse.takeWhile (fun c => c ≠ '.') ++ ('.' :: before) = s.reverse := by
      rw [← h, List.takeWhile_append_dropWhile]
    have hs : s = before.reverse ++ '.' :: (s.reverse.takeWhile (fun c => c ≠ '.')).reverse := by
      have h2 := congrArg List.reverse hsplit
      simpa [List.reverse_append] using h2.symm
    by_cases hc : before.reverse ≠ [] ∧ (s.reverse.takeWhile (fun c => c ≠ '.')).reverse ≠ []
    · simp only [if_pos hc]
      exact hs.symm
    · simp only [if_neg hc]
      simp

theorem candidate_inj (name : FileName) (i j : Nat) (h : candidate name i = candidate name j) :
    i = j := by
  have hss : (pyStem name).length + (pySuffix name).length = name.length := by
    have hl := congrArg List.length (stem_append_suffix name)
    simpa using hl
  cases i with
  | zero =>
    cases j with
    | zero => rfl
    | succ j =>
      exfalso
      have hlen := congrArg List.length h
      have hpos := List.length_pos.mpr (natDec_ne_nil (j + 1))
      simp [candidate, List.length_append] at hlen
      omega
  | succ i =>
    cases j with
    | zero =>
      exfalso
      have hlen := congrArg List.length h
      have hpos := List.length_pos.mpr (natDec_ne_nil (i + 1))
      simp [candidate, List.length_append] at hlen
      omega
    | succ j =>
      simp only [candidate] at h
      have h1 := List.append_cancel_right h
      have h2 := List.append_cancel_left h1
      have h3 : natDec (i + 1) = natDec (j + 1) := by
        injection h2
      have h4 := natDec_inj h3
      omega

/-! ### Helper lemmas: the collision loop returns the first free candidate -/

theorem resolveLoop_free (e : FileName → Bool) (name : FileName) :
    ∀ (fuel k : Nat) (r : FileName), resolveLoop e name k fuel = some r → e r = false := by
  intro fuel
  induction fuel with
  | zero => intro k r h; simp [resolveLoop] at h
  | succ f ih =>
    intro k r h
    simp only [resolveLoop] at h
    split at h
    · exact ih _ _ h
    · next hc =>
      cases h
      simpa using hc

theorem resolveLoop_finds (e : FileName → Bool) (name : FileName) :
    ∀ (fuel k : Nat), (∃ j, j < fuel ∧ e (candidate name (k + j)) = false) →
      ∃ r, resolveLoop e name k fuel = some r := by
  intro fuel
  induction fuel with
  | zero =>
    rintro k ⟨j, hj, _⟩
    omega
  | succ f ih =>
    rintro k ⟨j, hj, hjf⟩
    by_cases hc : e (candidate name k) = true
    · have hnext : ∃ j', j' < f ∧ e (candidate name (k + 1 + j')) = false := by
        cases j with
        | zero =>
          rw [Nat.add_zero] at hjf
          rw [hjf] at hc
          cases hc
        | succ j' =>
          refine ⟨j', by omega, ?_⟩
          rw [show k + 1 + j' = k + (j' + 1) by omega]
          exact hjf
      obtain ⟨r, hr⟩ := ih (k + 1) hnext
      refine ⟨r, ?_⟩
      simp only [resolveLoop]
      rw [if_pos hc]
      exact hr
    · refine ⟨candidate name k, ?_⟩
      simp only [resolveLoop]
      rw [if_neg hc]

/-! ### Helper lemmas: the classifier key never contains a dot -/

theorem ofNat_ne_dot (m : Nat) (h1 : 97 ≤ m) (h2 : m ≤ 122) : Char.ofNat m ≠ '.' := by
  interval_cases m <;> decide

theorem toLower_ne_dot (c : Char) (hc : c ≠ '.') : c.toLower ≠ '.' := by
  unfold Char.toLower
  dsimp only
  split
  · next h => exact ofNat_ne_dot _ (by omega) (by omega)
  · exact hc

theorem pySuffix_cases (s : List Char) :
    pySuffix s = [] ∨ ∃ aft, pySuffix s = '.' :: aft ∧ ∀ c ∈ aft, c ≠ '.' := by
  unfold pySuffix splitLastDot
  cases h : s.reverse.dropWhile (fun c => c ≠ '.') with
  | nil => exact Or.inl rfl
  | cons d before =>
    by_cases hc : before.reverse ≠ [] ∧ (s.reverse.takeWhile (fun c => c ≠ '.')).reverse ≠ []
    · refine Or.inr ⟨(s.reverse.takeWhile (fun c => c ≠ '.')).reverse, ?_, ?_⟩
      · simp only [if_pos hc]
      · intro c hcm
        have hm := List.mem_takeWhile_imp (List.mem_reverse.mp hcm)
        simpa using hm
    · refine Or.inl ?_
      simp only [if_neg hc]

theorem noDot_classify (name : FileName) : '.' ∉ classify name := by
  unfold classify
  rcases pySuffix_cases name with h | ⟨aft, h, haft⟩
  · rw [h]
    decide
  · rw [h]
    have hlow : pyLower ('.' :: aft) = '.' :: pyLower aft := by
      simp [pyLower]
    have hnd : '.' ∉ pyLower aft := by
      intro hmem
      obtain ⟨c, hcm, hce⟩ := List.mem_map.mp hmem
      exact toLower_ne_dot c (haft c hcm) hce
    have hsub : '.' ∉ lstripDot (pyLower ('.' :: aft)) := by
      rw [hlow]
      intro hmem
      have hdw : lstripDot ('.' :: pyLower aft) = lstripDot (pyLower aft) := by
        simp [lstripDot, List.dropWhile_cons]
      rw [hdw] at hmem
      exact hnd ((List.dropWhile_sublist _).mem hmem)
    intro hmem
    dsimp only at hmem
    by_cases hext : lstripDot (pyLower ('.' :: aft)) = []
    · rw [if_pos hext] at hmem
      revert hmem
      decide
    · rw [if_neg hext] at hmem
      exact hsub hmem

theorem classify_of_noDot (s : List Char) (h : '.' ∉ s) : classify s = noExtension := by
  have hdw : s.reverse.dropWhile (fun c => c ≠ '.') = [] := by
    rw [List.dropWhile_eq_nil_iff]
    intro x hx
    have hxs : x ∈ s := List.mem_reverse.mp hx
    simp only [ne_eq, decide_eq_true_eq]
    intro he
    exact h (he ▸ hxs)
  have hsuf : pySuffix s = [] := by
    unfold pySuffix splitLastDot
    rw [hdw]
  unfold classify
  rw [hsuf]
  simp [lstripDot, pyLower]

/-! ### Helper lemma: the dotfile case of the classifier -/

theorem dropWhile_all_append_dot (l : List Char) (h : ∀ c ∈ l, c ≠ '.') :
    (l ++ ['.']).dropWhile (fun c => c ≠ '.') = ['.'] := by
  induction l with
  | nil => rfl
  | cons x xs ih =>
    rw [List.cons_append, List.dropWhile_cons]
    have hx : x ≠ '.' := h x (by simp)
    rw [if_pos (by simpa using hx)]
    exact ih (fun c hc => h c (by simp [hc]))

/-! ### Helper lemma: last component of an extended path -/

theorem getLastD_append_single {α : Type} (l : List α) (a : α) (d : α) :
    (l ++ [a]).getLastD d = a :=
  List.getLastD_concat d a l

/-! ### Helper lemma: the semaphore invariant -/

theorem semReach_permits_running {n w : Nat} {s : SchedState} (h : SemReach n w s) :
    s.permits + s.running = n := by
  induction h with
  | init => rfl
  | step _ hstep ih =>
    cases hstep with
    | acquire p r w' d =>
      dsimp only at ih ⊢
      omega
    | release p r w' d =>
      dsimp only at ih ⊢
      omega

/-! ## Claim theorems -/

/-- C1: copying streams the source in fixed-size 8 KiB chunks until
end-of-input, and the bytes written to the destination reproduce the source
bytes exactly and in order (round-trip equality). -/
theorem copy_roundtrip (src : List Nat) : streamCopy src = src :=
  streamCopy_eq src

/-- C2: the scheduler produces exactly one outcome per input file, and the
reported counts satisfy `successful + failed = number of files`, for every
fault pattern of the individual copies. -/
theorem scheduler_counts (fault : FsPath → Bool) (fs : Fs) (out : FsPath) (fuel : Nat)
    (files : List FsPath) :
    (processOutcomes fault fs out fuel files).length = files.length ∧
      successfulCount (processOutcomes fault fs out fuel files) +
        failedCount (processOutcomes fault fs out fuel files) = files.length := by
  have hlen : (processOutcomes fault fs out fuel files).length = files.length := by
    simp [processOutcomes]
  refine ⟨hlen, ?_⟩
  have hle : successfulCount (processOutcomes fault fs out fuel files) ≤
      (processOutcomes fault fs out fuel files).length := by
    unfold successfulCount
    exact List.countP_le_length _
  unfold failedCount
  omega

/-- C3: for every existence predicate under which some candidate name is
free, the collision-safe namer terminates and returns a name the predicate
reports unused; the candidate sequence (desired name, then
`{stem}_{counter}{ext}` for counter = 1, 2, ...) is pairwise distinct. -/
theorem resolver_terminates_free (e : FileName → Bool) (name : FileName) (k fuel : Nat)
    (hfree : e (candidate name k) = false) (hfuel : k < fuel) :
    (∃ r, resolveTarget e name fuel = some r ∧ e r = false) ∧
      (∀ i j, i ≠ j → candidate name i ≠ candidate name j) := by
  constructor
  · obtain ⟨r, hr⟩ :=
      resolveLoop_finds e name fuel 0 ⟨k, hfuel, by rw [Nat.zero_add]; exact hfree⟩
    exact ⟨r, hr, resolveLoop_free e name fuel 0 r hr⟩
  · intro i j hij hc
    exact hij (candidate_inj name i j hc)

/-- Witness for C3 at a concrete predicate and name. -/
theorem resolver_terminates_free_witness :
    ((∃ r, resolveTarget (fun _ => false) "a.txt".data 1 = some r ∧
        (fun (_ : FileName) => false) r = false) ∧
      (∀ i j, i ≠ j → candidate "a.txt".data i ≠ candidate "a.txt".data j)) ∧
      (fun (_ : FileName) => false) (candidate "a.txt".data 0) = false ∧ 0 < 1 :=
  ⟨resolver_terminates_free (fun _ => false) "a.txt".data 0 1 rfl (by decide), rfl, by decide⟩

/-- C4: in every interleaving of a run with concurrency limit `n`, at most
`n` copy operations are in flight (running inside the semaphore) at any
reachable instant. -/
theorem semaphore_bound (n w : Nat) (s : SchedState) (_hn : 0 < n)
    (h : SemReach n w s) : s.running ≤ n := by
  have hinv := semReach_permits_running h
  omega

/-- Witness for C4 at a concrete run. -/
theorem semaphore_bound_witness :
    0 < 2 ∧ (SchedState.mk 2 0 3 0).running ≤ 2 :=
  ⟨by decide, semaphore_bound 2 3 ⟨2, 0, 3, 0⟩ (by decide) SemReach.init⟩

/-- C6 counterexample: `classify` is not idempotent — classifying the key
of `a.txt` a second time yields `no_extension`, not `txt`. -/
theorem classify_idempotent_counterexample :
    classify (classify "a.txt".data) ≠ classify "a.txt".data := by decide

/-- C6 amended: `classify` is total; applying it twice always collapses to
the sentinel `no_extension` (so it is idempotent exactly at inputs whose key
is the sentinel, the sentinel itself being a fixed point); `archive.tar.gz`
maps to key `gz` and `README` maps to key `no_extension`. -/
theorem classify_double_collapse (name : FileName) :
    classify (classify name) = noExtension ∧
      classify noExtension = noExtension ∧
      classify "archive.tar.gz".data = "gz".data ∧
      classify "README".data = noExtension :=
  ⟨classify_of_noDot _ (noDot_classify name), by decide, by decide, by decide⟩

/-- C9: when the source root does not exist (or is not a directory), the
run logs a validation error and ends with no file processed and without
creating the output folder. -/
theorem missing_source_no_processing (sourceExists sourceIsDir : Bool)
    (files : List FsPath) (h : sourceExists = false ∨ sourceIsDir = false) :
    (mainRun sourceExists sourceIsDir files).validationError = true ∧
      (mainRun sourceExists sourceIsDir files).outputCreated = false ∧
      (mainRun sourceExists sourceIsDir files).processedCount = 0 := by
  rcases h with h | h
  · subst h
    exact ⟨rfl, rfl, rfl⟩
  · subst h
    cases sourceExists <;> exact ⟨rfl, rfl, rfl⟩

/-- Witness for C9 at a concrete run with a missing source root. -/
theorem missing_source_no_processing_witness :
    (mainRun false true ([] : List FsPath)).validationError = true ∧
      (mainRun false true ([] : List FsPath)).outputCreated = false ∧
      (mainRun false true ([] : List FsPath)).processedCount = 0 :=
  missing_source_no_processing false true [] (Or.inl rfl)

/-- C10: a dotfile — a name starting with a dot and containing no further
dot — gets the sentinel key `no_extension`, so its copy destination is the
`no_extension` subdirectory of the output folder. -/
theorem dotfile_no_extension (rest : List Char) (out : FsPath) (h : '.' ∉ rest) :
    classify ('.' :: rest) = noExtension ∧
      initialTarget out ('.' :: rest) = out ++ [noExtension, '.' :: rest] := by
  have hc : classify ('.' :: rest) = noExtension := by
    have hrev : ('.' :: rest).reverse = rest.reverse ++ ['.'] := by simp
    have hdw : ('.' :: rest).reverse.dropWhile (fun c => c ≠ '.') = ['.'] := by
      rw [hrev]
      exact dropWhile_all_append_dot _ (fun c hcm he =>
        h (he ▸ List.mem_reverse.mp hcm))
    have hsuf : pySuffix ('.' :: rest) = [] := by
      unfold pySuffix splitLastDot
      rw [hdw]
      simp
    unfold classify
    rw [hsuf]
    simp [lstripDot, pyLower]
  exact ⟨hc, by simp [initialTarget, hc]⟩

/-- Witness for C10 at the dotfile `.bashrc`. -/
theorem dotfile_no_extension_witness :
    classify ('.' :: "bashrc".data) = noExtension ∧
      initialTarget [] ('.' :: "bashrc".data) = [] ++ [noExtension, '.' :: "bashrc".data] :=
  dotfile_no_extension "bashrc".data [] (by decide)

/-- C7: a copy operation, successful or failed, never modifies, truncates,
or deletes an existing file: every path that held some content before the
copy holds the same content after it (in particular the source file). -/
theorem copy_preserves_existing (fault : FsPath → Bool) (fs : Fs) (src out : FsPath)
    (fuel : Nat) (p : FsPath) (v : List Nat) (hp : fs p = some v) :
    (copyFileF fault fs src out fuel).2 p = some v := by
  unfold copyFileF
  split
  · exact hp
  · unfold copyFileFS
    dsimp only
    cases hres : resolveTarget
        (fun nm => (fs (out ++ [classify (src.getLastD [])] ++ [nm])).isSome)
        (src.getLastD []) fuel with
    | none => exact hp
    | some nm =>
      cases hsrc : fs src with
      | none => exact hp
      | some content =>
        dsimp only
        have hfree : (fs (out ++ [classify (src.getLastD [])] ++ [nm])).isSome = false :=
          resolveLoop_free _ _ fuel 0 nm hres
        split
        · next heq =>
          exfalso
          rw [heq] at hp
          rw [hp] at hfree
          simp at hfree
        · exact hp

/-- A one-file filesystem used as concrete input for witnesses. -/
def fsOne : Fs := fun p => if p = [['a']] then some [1] else none

/-- Witness for C7 at a concrete filesystem. -/
theorem copy_preserves_existing_witness :
    (copyFileF (fun _ => false) fsOne [['a']] [] 1).2 [['a']] = some [1] :=
  copy_preserves_existing (fun _ => false) fsOne [['a']] [] 1 [['a']] [1] (by decide)

/-- C8: per-file faults are isolated: every submitted file receives exactly
one outcome, a faulted file's outcome is `false` (Failed), and a file's
outcome does not depend on the faults of the other files. -/
theorem fault_isolation (fault fault' : FsPath → Bool) (fs : Fs) (out : FsPath)
    (fuel : Nat) (files : List FsPath) (i : Nat) (f : FsPath)
    (hf : files[i]? = some f) :
    (processOutcomes fault fs out fuel files).length = files.length ∧
      (processOutcomes fault fs out fuel files)[i]?
        = some ((copyFileF fault fs f out fuel).1) ∧
      (fault f = true → (processOutcomes fault fs out fuel files)[i]? = some false) ∧
      (fault f = fault' f →
        (processOutcomes fault fs out fuel files)[i]?
          = (processOutcomes fault' fs out fuel files)[i]?) := by
  have hm : (processOutcomes fault fs out fuel files)[i]?
      = some ((copyFileF fault fs f out fuel).1) := by
    simp [processOutcomes, List.getElem?_map, hf]
  have hm' : (processOutcomes fault' fs out fuel files)[i]?
      = some ((copyFileF fault' fs f out fuel).1) := by
    simp [processOutcomes, List.getElem?_map, hf]
  refine ⟨by simp [processOutcomes], hm, ?_, ?_⟩
  · intro hfault
    rw [hm]
    simp [copyFileF, hfault]
  · intro hagree
    rw [hm, hm']
    unfold copyFileF
    rw [hagree]

/-- Witness for C8 at a concrete file list with a faulting first file. -/
theorem fault_isolation_witness :
    (processOutcomes (fun _ => true) fsOne [] 1 [[['a']]]).length = [[['a']]].length ∧
      (processOutcomes (fun _ => true) fsOne [] 1 [[['a']]])[0]?
        = some ((copyFileF (fun _ => true) fsOne [['a']] [] 1).1) ∧
      ((fun (_ : FsPath) => true) [['a']] = true →
        (processOutcomes (fun _ => true) fsOne [] 1 [[['a']]])[0]? = some false) ∧
      ((fun (_ : FsPath) => true) [['a']] = (fun (_ : FsPath) => false) [['a']] →
        (processOutcomes (fun _ => true) fsOne [] 1 [[['a']]])[0]?
          = (processOutcomes (fun _ => false) fsOne [] 1 [[['a']]])[0]?) :=
  fault_isolation (fun _ => true) (fun _ => false) fsOne [] 1 [[['a']]] 0 [['a']] rfl

/-- A filesystem holding exactly the source file `s/b.TXT` with bytes `[7]`. -/
def fsCase : Fs := fun p => if p = ["s".data, "b.TXT".data] then some [7] else none

/-- C5 counterexample: copying `s/b.TXT` into an empty output root puts the
bytes at `o/txt/b.TXT` — the destination filename keeps its original case —
and nothing at the case-normalized `o/txt/b.txt` the claim names. -/
theorem dest_case_counterexample :
    (copyFileFS fsCase ["s".data, "b.TXT".data] ["o".data] 1).1 = true ∧
      (copyFileFS fsCase ["s".data, "b.TXT".data] ["o".data] 1).2
        ["o".data, "txt".data, "b.txt".data] = none ∧
      (copyFileFS fsCase ["s".data, "b.TXT".data] ["o".data] 1).2
        ["o".data, "txt".data, "b.TXT".data] = some [7] := by decide

/-- C5 amended: a file whose extension differs only in letter case is
copied into the lower-cased extension subdirectory (`b.TXT` goes under key
`txt`), but the destination filename keeps its original case: when the
target name is free, the content lands at `output/txt/b.TXT`, not
`output/txt/b.txt`. -/
theorem dest_preserves_name_case (fs : Fs) (srcDir out : FsPath) (name : FileName)
    (content : List Nat) (hsrc : fs (srcDir ++ [name]) = some content)
    (hfree : fs (out ++ [classify name, name]) = none) :
    (copyFileFS fs (srcDir ++ [name]) out 1).1 = true ∧
      (copyFileFS fs (srcDir ++ [name]) out 1).2 (out ++ [classify name, name])
        = some content ∧
      classify "b.TXT".data = "txt".data := by
  have hname : (srcDir ++ [name]).getLastD [] = name := getLastD_append_single srcDir name []
  have hassoc : out ++ [classify name] ++ [name] = out ++ [classify name, name] := by
    simp
  have hres : resolveTarget (fun nm => (fs (out ++ [classify name] ++ [nm])).isSome)
      name 1 = some name := by
    simp only [resolveTarget, resolveLoop, candidate]
    rw [hassoc, hfree]
    simp
  unfold copyFileFS
  dsimp only
  rw [hname, hres]
  dsimp only
  rw [hsrc]
  dsimp only
  refine ⟨rfl, ?_, by decide⟩
  rw [if_pos hassoc.symm, streamCopy_eq]

/-- Witness for the amended C5 at the concrete file `s/b.TXT`. -/
theorem dest_preserves_name_case_witness :
    (copyFileFS fsCase (["s".data] ++ ["b.TXT".data]) ["o".data] 1).1 = true ∧
      (copyFileFS fsCase (["s".data] ++ ["b.TXT".data]) ["o".data] 1).2
        (["o".data] ++ [classify "b.TXT".data, "b.TXT".data]) = some [7] ∧
      classify "b.TXT".data = "txt".data :=
  dest_preserves_name_case fsCase ["s".data] ["o".data] "b.TXT".data [7]
    (by decide) (by decide)
